import Mathlib

/-!
Verification of the day-22 duel simulator and its optimal-cost search.

The definitions below are a shallow embedding of the Rust source in
src/src/challenges/day22.rs.  Machine integers (u8, u32) are modelled as
Nat; all subtractions in the source are saturating (saturating_sub or
guarded), which Nat subtraction models exactly.  Mutation through
references is modelled by explicit state passing, and the Rust
Result-with-mutation idiom (Result<(), Winner> methods mutating self)
is modelled by the monad TurnM whose error value carries the state at
the moment the winner was detected, exactly as the mutated self does in
the source.
-/

namespace Day22

structure Player where
  hit_points : Nat
  armor : Nat
  mana : Nat
deriving DecidableEq, Repr

def Player.new (hit_points mana : Nat) : Player :=
  { hit_points := hit_points, armor := 0, mana := mana }

structure Boss where
  hit_points : Nat
  damage : Nat
deriving DecidableEq, Repr

def Boss.new (hit_points damage : Nat) : Boss :=
  { hit_points := hit_points, damage := damage }

inductive Spell where
  | MagicMissile
  | Drain
  | Shield
  | Poison
  | Recharge
deriving DecidableEq, Repr

def Spell.mana_cost : Spell → Nat
  | .MagicMissile => 53
  | .Drain => 73
  | .Shield => 113
  | .Poison => 173
  | .Recharge => 229

inductive Effect where
  | Shield
  | Poison
  | Recharge
deriving DecidableEq, Repr

def Spell.effect : Spell → Option Effect
  | .MagicMissile | .Drain => none
  | .Shield => some .Shield
  | .Poison => some .Poison
  | .Recharge => some .Recharge

/-- Model of the free function deal_damage: saturating subtraction of
max(attacker_damage, 1) from the defender hit points. -/
def deal_damage (defender_hit_points attacker_damage : Nat) : Nat :=
  defender_hit_points - max attacker_damage 1

def Effect.activate : Effect → Player → Boss → Player × Boss
  | .Shield, p, b => ({ p with armor := p.armor + 7 }, b)
  | .Poison, p, b => (p, b)
  | .Recharge, p, b => (p, b)

def Effect.apply : Effect → Player → Boss → Player × Boss
  | .Shield, p, b => (p, b)
  | .Poison, p, b => (p, { b with hit_points := deal_damage b.hit_points 3 })
  | .Recharge, p, b => ({ p with mana := p.mana + 101 }, b)

def Effect.deactivate : Effect → Player → Boss → Player × Boss
  | .Shield, p, b => ({ p with armor := p.armor - 7 }, b)
  | .Poison, p, b => (p, b)
  | .Recharge, p, b => (p, b)

structure EffectTimers where
  shield_timer : Nat
  poison_timer : Nat
  recharge_timer : Nat
deriving DecidableEq, Repr

def EffectTimers.new : EffectTimers :=
  { shield_timer := 0, poison_timer := 0, recharge_timer := 0 }

def EffectTimers.timer (t : EffectTimers) : Effect → Nat
  | .Shield => t.shield_timer
  | .Poison => t.poison_timer
  | .Recharge => t.recharge_timer

/-- Model of the write through timer_mut: replace the timer of one effect. -/
def EffectTimers.set_timer (t : EffectTimers) (e : Effect) (n : Nat) : EffectTimers :=
  match e with
  | .Shield => { t with shield_timer := n }
  | .Poison => { t with poison_timer := n }
  | .Recharge => { t with recharge_timer := n }

def EffectTimers.activate (t : EffectTimers) (e : Effect) (duration : Nat) : EffectTimers :=
  t.set_timer e duration

/-- Model of try_decrement: error when the timer is 0, otherwise the
decremented value together with the updated timers. -/
def EffectTimers.try_decrement (t : EffectTimers) (e : Effect) :
    Except Unit (Nat × EffectTimers) :=
  if t.timer e = 0 then .error ()
  else
    let n := t.timer e - 1
    .ok (n, t.set_timer e n)

inductive GameError where
  | GameFinished
  | NotEnoughMana
  | EffectAlreadyActive
deriving DecidableEq, Repr

inductive Difficulty where
  | Normal
  | Hard
deriving DecidableEq, Repr

inductive Winner where
  | Player
  | Boss
deriving DecidableEq, Repr

structure Game where
  player : Player
  boss : Boss
  effect_timers : EffectTimers
  difficulty : Difficulty
deriving DecidableEq, Repr

def Game.new (player : Player) (boss : Boss) (difficulty : Difficulty) : Game :=
  { player := player, boss := boss, effect_timers := EffectTimers.new,
    difficulty := difficulty }

def Game.winner (g : Game) : Option Winner :=
  if g.player.hit_points = 0 then some .Boss
  else if g.boss.hit_points = 0 then some .Player
  else none

/-- Monad of the Result<(), Winner> methods of Game: the error carries the
winner together with the state of the game at the point the winner was
detected (the mutated self in the source). -/
abbrev TurnM := Except (Winner × Game) Game

def Game.winner_result (g : Game) : TurnM :=
  match g.winner with
  | none => .ok g
  | some w => .error (w, g)

def Game.activate_effect (g : Game) (e : Effect) (duration : Nat) : Game :=
  let g1 := { g with effect_timers := g.effect_timers.activate e duration }
  let pb := e.activate g1.player g1.boss
  { g1 with player := pb.1, boss := pb.2 }

def Spell.cast (s : Spell) (g : Game) : Game :=
  let g1 := { g with player := { g.player with mana := g.player.mana - s.mana_cost } }
  match s with
  | .MagicMissile =>
      { g1 with boss := { g1.boss with hit_points := deal_damage g1.boss.hit_points 4 } }
  | .Drain =>
      { g1 with
        boss := { g1.boss with hit_points := deal_damage g1.boss.hit_points 2 },
        player := { g1.player with hit_points := g1.player.hit_points + 2 } }
  | .Shield => g1.activate_effect .Shield 6
  | .Poison => g1.activate_effect .Poison 6
  | .Recharge => g1.activate_effect .Recharge 5

def Game.apply_effect_if_active (g : Game) (e : Effect) : TurnM :=
  match g.effect_timers.try_decrement e with
  | .error _ => .ok g
  | .ok (timer, timers) =>
      let g1 := { g with effect_timers := timers }
      let pb := e.apply g1.player g1.boss
      let g2 := { g1 with player := pb.1, boss := pb.2 }
      let g3 :=
        if timer = 0 then
          let pb2 := e.deactivate g2.player g2.boss
          { g2 with player := pb2.1, boss := pb2.2 }
        else g2
      g3.winner_result

def Game.apply_active_effects (g : Game) : TurnM := do
  let g1 ← g.apply_effect_if_active .Shield
  let g2 ← g1.apply_effect_if_active .Poison
  g2.apply_effect_if_active .Recharge

def Game.apply_player_difficulty_modifier (g : Game) : TurnM :=
  let g1 :=
    if g.difficulty = .Hard then
      { g with player := { g.player with hit_points := deal_damage g.player.hit_points 1 } }
    else g
  g1.winner_result

def Game.player_cast_spell (g : Game) (s : Spell) : TurnM :=
  (s.cast g).winner_result

def Game.boss_attack (g : Game) : TurnM :=
  let g1 := { g with player := { g.player with
      hit_points := deal_damage g.player.hit_points (g.boss.damage - g.player.armor) } }
  g1.winner_result

def Game.assert_no_winner_yet (g : Game) : Except GameError Unit :=
  if g.winner.isSome then .error .GameFinished else .ok ()

def Game.assert_player_can_cast (g : Game) (s : Spell) : Except GameError Unit :=
  if g.player.mana < s.mana_cost then .error .NotEnoughMana
  else
    match s.effect with
    | some e =>
        if g.effect_timers.timer e > 1 then .error .EffectAlreadyActive else .ok ()
    | none => .ok ()

/-- Model of map_or_else(|winner| Ok(Some(winner)), |()| Ok(None)) with the
mutated state kept alongside. -/
def TurnM.toOutcome : TurnM → Game × Option Winner
  | .ok g => (g, none)
  | .error (w, g) => (g, some w)

def Game.player_take_turn (g : Game) (s : Spell) :
    Except GameError (Game × Option Winner) :=
  match g.assert_no_winner_yet with
  | .error e => .error e
  | .ok _ =>
    match g.assert_player_can_cast s with
    | .error e => .error e
    | .ok _ =>
      .ok (TurnM.toOutcome (do
        let g1 ← g.apply_player_difficulty_modifier
        let g2 ← g1.apply_active_effects
        g2.player_cast_spell s))

def Game.boss_take_turn (g : Game) : Except GameError (Game × Option Winner) :=
  match g.assert_no_winner_yet with
  | .error e => .error e
  | .ok _ =>
    .ok (TurnM.toOutcome (do
      let g1 ← g.apply_active_effects
      g1.boss_attack))

def Game.play_round (g : Game) (s : Spell) :
    Except GameError (Game × Option Winner) :=
  match g.player_take_turn s with
  | .error e => .error e
  | .ok (g1, some w) => .ok (g1, some w)
  | .ok (g1, none) => g1.boss_take_turn

/-! The Dijkstra optimizer.  The binary heap is modelled as a list with a
scan for the Ord-maximal element (the derived Ord instances of the source
are lexicographic on the fields, reproduced below); the HashMap of node
distances is modelled as an association list with insert-at-front. -/

structure Node where
  total_mana_cost : Nat
  game_state : Game
deriving DecidableEq, Repr

def Difficulty.cmp : Difficulty → Difficulty → Ordering
  | .Normal, .Normal => .eq
  | .Normal, .Hard => .lt
  | .Hard, .Normal => .gt
  | .Hard, .Hard => .eq

def Player.cmp (a b : Player) : Ordering :=
  (compare a.hit_points b.hit_points).then
    ((compare a.armor b.armor).then (compare a.mana b.mana))

def Boss.cmp (a b : Boss) : Ordering :=
  (compare a.hit_points b.hit_points).then (compare a.damage b.damage)

def EffectTimers.cmp (a b : EffectTimers) : Ordering :=
  (compare a.shield_timer b.shield_timer).then
    ((compare a.poison_timer b.poison_timer).then
      (compare a.recharge_timer b.recharge_timer))

def Game.cmp (a b : Game) : Ordering :=
  (a.player.cmp b.player).then
    ((a.boss.cmp b.boss).then
      ((a.effect_timers.cmp b.effect_timers).then (a.difficulty.cmp b.difficulty)))

/-- The reversed comparison of the source: greatest node = least mana cost,
ties broken by the game state order. -/
def Node.cmp (a b : Node) : Ordering :=
  (compare b.total_mana_cost a.total_mana_cost).then (a.game_state.cmp b.game_state)

/-- Model of BinaryHeap::pop: remove and return the Ord-greatest element. -/
def popMax : List Node → Option (Node × List Node)
  | [] => none
  | n :: rest =>
    match popMax rest with
    | none => some (n, [])
    | some (m, rest1) => if n.cmp m = .lt then some (m, n :: rest1) else some (n, rest)

def lookupDist : List (Game × Nat) → Game → Option Nat
  | [], _ => none
  | (g, c) :: rest, v => if g = v then some c else lookupDist rest v

structure DijkstraOptimizer where
  node_distances : List (Game × Nat)
  unvisited : List Node
deriving Repr

def SPELLS : List Spell :=
  [.MagicMissile, .Drain, .Shield, .Poison, .Recharge]

def DijkstraOptimizer.register_neighbor (o : DijkstraOptimizer) (current_node : Node)
    (spell : Spell) : DijkstraOptimizer :=
  match current_node.game_state.play_round spell with
  | .error _ => o
  | .ok (g1, w) =>
    if w = some Winner.Boss then o
    else
      let neighbor_cost := current_node.total_mana_cost + spell.mana_cost
      let improved : Bool :=
        match lookupDist o.node_distances g1 with
        | some d => neighbor_cost < d
        | none => true
      if improved then
        { node_distances := (g1, neighbor_cost) :: o.node_distances,
          unvisited := { total_mana_cost := neighbor_cost, game_state := g1 } :: o.unvisited }
      else o

def DijkstraOptimizer.register_neighbors (o : DijkstraOptimizer)
    (current_node : Node) : DijkstraOptimizer :=
  SPELLS.foldl (fun acc s => acc.register_neighbor current_node s) o

def DijkstraOptimizer.new (initial_state : Game) : DijkstraOptimizer :=
  DijkstraOptimizer.register_neighbors
    { node_distances := [], unvisited := [] }
    { total_mana_cost := 0, game_state := initial_state }

/-- Outcome of running the search loop with a given amount of fuel.  The
source loop has no fuel; outOfFuel marks an unfinished run.  bossOnHeap
marks the unreachable branch for a popped boss-winning node, and
missingDistance the indexing panic of node_distances on a missing key. -/
inductive SearchStep where
  | done (res : Option Nat)
  | outOfFuel
  | bossOnHeap
  | missingDistance
deriving DecidableEq, Repr

def DijkstraOptimizer.find_lowest_mana_cost_to_win :
    Nat → DijkstraOptimizer → SearchStep
  | 0, _ => .outOfFuel
  | fuel + 1, o =>
    match popMax o.unvisited with
    | none => .done none
    | some (node, rest) =>
      match node.game_state.winner with
      | some .Player => .done (some node.total_mana_cost)
      | some .Boss => .bossOnHeap
      | none =>
        match lookupDist o.node_distances node.game_state with
        | none => .missingDistance
        | some d =>
          if d < node.total_mana_cost then
            DijkstraOptimizer.find_lowest_mana_cost_to_win fuel
              { o with unvisited := rest }
          else
            DijkstraOptimizer.find_lowest_mana_cost_to_win fuel
              (DijkstraOptimizer.register_neighbors { o with unvisited := rest } node)

def search (g : Game) (fuel : Nat) : SearchStep :=
  DijkstraOptimizer.find_lowest_mana_cost_to_win fuel (DijkstraOptimizer.new g)

/-! Winning sequences of caster moves.  A round of the search graph is one
successful play_round whose outcome is not a boss win, exactly the
condition under which register_neighbor records the resulting state. -/

def neighborState (g : Game) (s : Spell) : Option Game :=
  match g.play_round s with
  | .error _ => none
  | .ok (g1, w) => if w = some Winner.Boss then none else some g1

def runPath (g : Game) : List Spell → Option Game
  | [] => some g
  | s :: l =>
    match neighborState g s with
    | none => none
    | some g1 => runPath g1 l

def pathCost (l : List Spell) : Nat := (l.map Spell.mana_cost).sum

/-- A nonempty sequence of legal caster moves (each round including the
forced boss half-turn unless the caster half-turn already decided the
duel) whose last round ends with the caster as winner. -/
def WinningSeq (g : Game) (l : List Spell) : Prop :=
  l ≠ [] ∧ ∃ t, runPath g l = some t ∧ t.winner = some Winner.Player

def winCosts (g : Game) : Set Nat := {c | ∃ l, WinningSeq g l ∧ pathCost l = c}

def reachSet (g0 v : Game) : Set Nat :=
  {c | ∃ l, runPath g0 l = some v ∧ pathCost l = c}

/-- The game state carried by a TurnM result, whether or not a winner was
detected (the mutated self of the source in both cases). -/
def TurnM.state : TurnM → Game
  | .ok g => g
  | .error (_, g) => g

/-- One half-turn tick of a single effect, viewed on the carried state. -/
def tickState (g : Game) (e : Effect) : Game :=
  TurnM.state (g.apply_effect_if_active e)

/-- The standing Shield modifier is present exactly when the shield timer
is positive: armor is the base value plus 7 while the timer runs. -/
def ShieldSync (g : Game) (base : Nat) : Prop :=
  g.player.armor = base + (if 0 < g.effect_timers.shield_timer then 7 else 0)

/-! Helper lemmas about the turn engine. -/

@[simp]
theorem TurnM.state_winner_result (g : Game) : TurnM.state g.winner_result = g := by
  unfold Game.winner_result
  cases h : g.winner <;> rfl

theorem EffectTimers.timer_set_timer_same (t : EffectTimers) (e : Effect) (n : Nat) :
    (t.set_timer e n).timer e = n := by
  cases e <;> rfl

theorem Game.winner_result_ok {g g1 : Game} (h : g.winner_result = .ok g1) :
    g1 = g ∧ g.winner = none := by
  unfold Game.winner_result at h
  cases hw : g.winner <;> rw [hw] at h <;> simp_all

theorem Game.winner_result_error {g g1 : Game} {w : Winner}
    (h : g.winner_result = .error (w, g1)) : g1 = g ∧ g.winner = some w := by
  unfold Game.winner_result at h
  cases hw : g.winner <;> rw [hw] at h <;> simp_all

/-! Claim theorems. -/

/-- Claim C6: the move catalog is exactly as listed: Strike (MagicMissile)
costs 53 and deals 4 instant damage to the boss; Drain costs 73, deals 2
instant damage and heals the caster by 2; Guard (Shield) costs 113 and
activates Shield for 6 ticks granting +7 caster defense; Poison costs 173
and activates Poison for 6 ticks dealing 3 damage to the boss per tick;
Recharge costs 229 and activates Recharge for 5 ticks granting +101
resource per tick.  Casting also deducts the cost from the caster mana. -/
theorem c6_move_catalog : ∀ (g : Game) (p : Player) (b : Boss),
    Spell.mana_cost .MagicMissile = 53 ∧
    Spell.mana_cost .Drain = 73 ∧
    Spell.mana_cost .Shield = 113 ∧
    Spell.mana_cost .Poison = 173 ∧
    Spell.mana_cost .Recharge = 229 ∧
    (Spell.cast .MagicMissile g).boss.hit_points = g.boss.hit_points - 4 ∧
    (Spell.cast .MagicMissile g).player.mana = g.player.mana - 53 ∧
    (Spell.cast .Drain g).boss.hit_points = g.boss.hit_points - 2 ∧
    (Spell.cast .Drain g).player.hit_points = g.player.hit_points + 2 ∧
    (Spell.cast .Shield g).effect_timers.shield_timer = 6 ∧
    (Spell.cast .Shield g).player.armor = g.player.armor + 7 ∧
    (Spell.cast .Poison g).effect_timers.poison_timer = 6 ∧
    (Spell.cast .Recharge g).effect_timers.recharge_timer = 5 ∧
    (Effect.apply .Poison p b).2.hit_points = b.hit_points - 3 ∧
    (Effect.apply .Recharge p b).1.mana = p.mana + 101 := by
  intro g p b
  refine ⟨rfl, rfl, rfl, rfl, rfl, ?_, rfl, ?_, rfl, rfl, rfl, rfl, rfl, ?_, rfl⟩ <;>
    simp [Spell.cast, Effect.apply, deal_damage, Game.activate_effect]

/-- Claim C7 counterexample: in a state where both the caster and the boss
have 0 health, the derived winner is Boss, not Caster: the source checks
the caster death first, so the claim that boss death takes precedence is
false at this input. -/
theorem c7_counterexample :
    Game.winner
      { player := ⟨0, 0, 0⟩, boss := ⟨0, 0⟩, effect_timers := ⟨0, 0, 0⟩,
        difficulty := .Normal } = some Winner.Boss := rfl

/-- Claim C7 amended: the caster death takes precedence over the boss death
when deriving the winner: the winner is Boss exactly when caster health is
0 (even if boss health is also 0), the winner is Caster exactly when boss
health is 0 and caster health is positive, and there is no winner exactly
when both are positive. -/
theorem c7_winner_precedence : ∀ g : Game,
    (g.winner = some Winner.Boss ↔ g.player.hit_points = 0) ∧
    (g.winner = some Winner.Player ↔ g.player.hit_points ≠ 0 ∧ g.boss.hit_points = 0) ∧
    (g.winner = none ↔ g.player.hit_points ≠ 0 ∧ g.boss.hit_points ≠ 0) := by
  intro g
  unfold Game.winner
  split_ifs with h1 h2 <;> simp_all

/-- Claim C9: starting from caster HP 10, resource 250 versus boss HP 13,
attack 8 at Normal difficulty, the half-turn sequence Poison, boss attack,
Strike, boss attack produces exactly the states asserted by the claim:
after Poison the boss is untouched at HP 13, the caster mana is 77 and the
Poison timer is 6; after the boss attack the caster is at HP 2, the boss at
HP 10 and the timer at 5; after Strike the boss is at HP 3 and the caster
mana at 24; and the following boss half-turn ends with the caster winning. -/
theorem c9_scenario :
    (Game.new (Player.new 10 250) (Boss.new 13 8) .Normal).player_take_turn .Poison =
      .ok (⟨⟨10, 0, 77⟩, ⟨13, 8⟩, ⟨0, 6, 0⟩, .Normal⟩, none) ∧
    (Game.boss_take_turn ⟨⟨10, 0, 77⟩, ⟨13, 8⟩, ⟨0, 6, 0⟩, .Normal⟩ =
      .ok (⟨⟨2, 0, 77⟩, ⟨10, 8⟩, ⟨0, 5, 0⟩, .Normal⟩, none)) ∧
    (Game.player_take_turn ⟨⟨2, 0, 77⟩, ⟨10, 8⟩, ⟨0, 5, 0⟩, .Normal⟩ .MagicMissile =
      .ok (⟨⟨2, 0, 24⟩, ⟨3, 8⟩, ⟨0, 4, 0⟩, .Normal⟩, none)) ∧
    (Game.boss_take_turn ⟨⟨2, 0, 24⟩, ⟨3, 8⟩, ⟨0, 4, 0⟩, .Normal⟩ =
      .ok (⟨⟨2, 0, 24⟩, ⟨0, 8⟩, ⟨0, 3, 0⟩, .Normal⟩, some Winner.Player)) :=
  ⟨rfl, rfl, rfl, rfl⟩

/-- Claim C2 counterexample: at a Hard-difficulty state with caster health
1 and resource 0 (so the chosen move MagicMissile is illegal) the claim
predicts a BossWon report with no legality check, because the pre-damage
alone kills the caster; the source instead performs the legality check
first and rejects with NotEnoughMana (InsufficientResource). -/
theorem c2_counterexample :
    Game.player_take_turn
      { player := ⟨1, 0, 0⟩, boss := ⟨5, 1⟩, effect_timers := ⟨0, 0, 0⟩,
        difficulty := .Hard } .MagicMissile
      = .error GameError.NotEnoughMana := rfl

/-- Claim C2 amended: the move-legality check precedes the Hard pre-damage:
in a Hard-difficulty in-progress duel, once the chosen move passes the
legality check, the 1 point of unavoidable pre-damage is applied first, and
if the caster health was 1 (so the pre-damage reduces it to 0) the
half-turn reports BossWon with no further steps. -/
theorem c2_hard_predamage : ∀ (g : Game) (s : Spell),
    g.winner = none → g.assert_player_can_cast s = .ok () →
    g.difficulty = .Hard → g.player.hit_points = 1 →
    g.player_take_turn s =
      .ok ({ g with player := { g.player with hit_points := 0 } }, some Winner.Boss) := by
  intro g s hw hcast hdiff hhp
  obtain ⟨⟨hp, ar, mn⟩, bo, ti, di⟩ := g
  simp only [Player.mk.injEq] at hhp hdiff ⊢
  subst hhp
  subst hdiff
  unfold Game.player_take_turn
  rw [show Game.assert_no_winner_yet ⟨⟨1, ar, mn⟩, bo, ti, .Hard⟩ = .ok () from by
    unfold Game.assert_no_winner_yet
    rw [hw]
    rfl]
  rw [hcast]
  rfl

/-- Claim C2 amended, witness at a concrete input. -/
theorem c2_hard_predamage_witness :
    Game.player_take_turn ⟨⟨1, 0, 500⟩, ⟨5, 1⟩, ⟨0, 0, 0⟩, .Hard⟩ .MagicMissile
      = .ok (⟨⟨0, 0, 500⟩, ⟨5, 1⟩, ⟨0, 0, 0⟩, .Hard⟩, some Winner.Boss) :=
  c2_hard_predamage ⟨⟨1, 0, 500⟩, ⟨5, 1⟩, ⟨0, 0, 0⟩, .Hard⟩ .MagicMissile rfl rfl rfl rfl

/-- Claim C3: every application of damage leaves the defender health at
max(before minus max(rawDamage, 1), 0), stated over the integers so that
the clamping at 0 is explicit: this holds for the shared deal_damage
helper, for the boss attack (whose raw damage is boss attack minus the
caster current defense bonus, so a fully shielded caster still takes 1),
for a Poison tick (raw damage 3) and for the instant move damage of
Strike (4) and Drain (2). -/
theorem c3_damage_formula : ∀ (hp dmg : Nat) (g : Game) (p : Player) (b : Boss),
    ((deal_damage hp dmg : Int) = max ((hp : Int) - max (dmg : Int) 1) 0) ∧
    (((TurnM.state g.boss_attack).player.hit_points : Int) =
      max ((g.player.hit_points : Int) -
        max ((g.boss.damage : Int) - (g.player.armor : Int)) 1) 0) ∧
    (((Effect.apply .Poison p b).2.hit_points : Int) =
      max ((b.hit_points : Int) - max (3 : Int) 1) 0) ∧
    (((Spell.cast .MagicMissile g).boss.hit_points : Int) =
      max ((g.boss.hit_points : Int) - max (4 : Int) 1) 0) ∧
    (((Spell.cast .Drain g).boss.hit_points : Int) =
      max ((g.boss.hit_points : Int) - max (2 : Int) 1) 0) := by
  intro hp dmg g p b
  have sub_clamp : ∀ a m : Nat, ((a - m : Nat) : Int) = max ((a : Int) - (m : Int)) 0 := by
    intro a m
    rw [max_def]
    split_ifs with h <;> omega
  have key : ∀ a d : Nat, ((deal_damage a d : Nat) : Int) =
      max ((a : Int) - max (d : Int) 1) 0 := by
    intro a d
    unfold deal_damage
    rw [sub_clamp, Nat.cast_max, Nat.cast_one]
  have inner : ∀ x y : Nat, max (((x - y : Nat) : Int)) 1 = max ((x : Int) - (y : Int)) 1 := by
    intro x y
    rw [max_def, max_def]
    split_ifs <;> omega
  refine ⟨key hp dmg, ?_, ?_, ?_, ?_⟩
  · unfold Game.boss_attack
    rw [TurnM.state_winner_result]
    show ((deal_damage g.player.hit_points (g.boss.damage - g.player.armor) : Nat) : Int) = _
    rw [key, inner]
  · exact key b.hit_points 3
  · exact key g.boss.hit_points 4
  · exact key g.boss.hit_points 2

/-- Claim C4: for every in-progress duel state and chosen move, the
half-turn rejects with NotEnoughMana (InsufficientResource) when the move
cost exceeds the caster resource; otherwise it never reports
NotEnoughMana, and for a move with a prolonged effect it rejects with
EffectAlreadyActive exactly when that effect's remaining timer is greater
than 1, so casting at a timer of exactly 1 (or 0) is never rejected. -/
theorem c4_legality_check : ∀ (g : Game) (s : Spell), g.winner = none →
    (g.player.mana < s.mana_cost → g.player_take_turn s = .error .NotEnoughMana) ∧
    (¬ g.player.mana < s.mana_cost →
      g.player_take_turn s ≠ .error GameError.NotEnoughMana ∧
      ∀ e, s.effect = some e →
        (1 < g.effect_timers.timer e ↔
          g.player_take_turn s = .error .EffectAlreadyActive)) := by
  intro g s hw
  have hnw : g.assert_no_winner_yet = .ok () := by
    unfold Game.assert_no_winner_yet
    rw [hw]
    rfl
  have herr : ∀ e : GameError, g.assert_player_can_cast s = .error e →
      g.player_take_turn s = .error e := by
    intro e he
    unfold Game.player_take_turn
    rw [hnw, he]
  have hok : g.assert_player_can_cast s = .ok () →
      ∃ out, g.player_take_turn s = .ok out := by
    intro hc
    unfold Game.player_take_turn
    rw [hnw, hc]
    exact ⟨_, rfl⟩
  have hcast : (g.player.mana < s.mana_cost →
        g.assert_player_can_cast s = .error .NotEnoughMana) ∧
      (¬ g.player.mana < s.mana_cost → ∀ e, s.effect = some e →
        (1 < g.effect_timers.timer e →
          g.assert_player_can_cast s = .error .EffectAlreadyActive) ∧
        (¬ 1 < g.effect_timers.timer e → g.assert_player_can_cast s = .ok ())) ∧
      (¬ g.player.mana < s.mana_cost → s.effect = none →
        g.assert_player_can_cast s = .ok ()) := by
    unfold Game.assert_player_can_cast
    refine ⟨fun hm => by rw [if_pos hm], fun hm e he => ?_, fun hm he => by
      rw [if_neg hm, he]⟩
    rw [if_neg hm, he]
    simp only [gt_iff_lt]
    exact ⟨fun ht => by rw [if_pos ht], fun ht => by rw [if_neg ht]⟩
  constructor
  · intro hmana
    exact herr _ (hcast.1 hmana)
  · intro hmana
    constructor
    · cases he : s.effect with
      | none =>
        obtain ⟨out, hout⟩ := hok (hcast.2.2 hmana he)
        rw [hout]
        simp
      | some e =>
        by_cases ht : 1 < g.effect_timers.timer e
        · rw [herr _ ((hcast.2.1 hmana e he).1 ht)]
          simp
        · obtain ⟨out, hout⟩ := hok ((hcast.2.1 hmana e he).2 ht)
          rw [hout]
          simp
    · intro e he
      constructor
      · intro ht
        exact herr _ ((hcast.2.1 hmana e he).1 ht)
      · intro hres
        by_contra ht
        obtain ⟨out, hout⟩ := hok ((hcast.2.1 hmana e he).2 ht)
        rw [hout] at hres
        simp at hres

/-- Claim C4 witness: a state with mana 10 rejects MagicMissile with
NotEnoughMana; with ample mana, recasting Shield at timer 2 is rejected
with EffectAlreadyActive while at timer 1 it is not. -/
theorem c4_legality_check_witness :
    Game.player_take_turn ⟨⟨9, 0, 10⟩, ⟨20, 8⟩, ⟨0, 0, 0⟩, .Normal⟩ .MagicMissile
      = .error GameError.NotEnoughMana ∧
    Game.player_take_turn ⟨⟨9, 0, 500⟩, ⟨20, 8⟩, ⟨2, 0, 0⟩, .Normal⟩ .Shield
      = .error GameError.EffectAlreadyActive ∧
    Game.player_take_turn ⟨⟨9, 0, 500⟩, ⟨20, 8⟩, ⟨1, 0, 0⟩, .Normal⟩ .Shield
      ≠ .error GameError.EffectAlreadyActive := by
  refine ⟨?_, ?_, ?_⟩
  · exact (c4_legality_check ⟨⟨9, 0, 10⟩, ⟨20, 8⟩, ⟨0, 0, 0⟩, .Normal⟩ .MagicMissile rfl).1
      (by decide)
  · exact ((c4_legality_check ⟨⟨9, 0, 500⟩, ⟨20, 8⟩, ⟨2, 0, 0⟩, .Normal⟩ .Shield rfl).2
      (by decide)).2 .Shield rfl |>.mp (by decide)
  · intro hres
    exact absurd (((c4_legality_check ⟨⟨9, 0, 500⟩, ⟨20, 8⟩, ⟨1, 0, 0⟩, .Normal⟩ .Shield
      rfl).2 (by decide)).2 .Shield rfl |>.mpr hres) (by decide)

theorem Game.play_round_no_mana {g : Game} (s : Spell) (h : g.player.mana = 0) :
    ∃ e, g.play_round s = .error e := by
  have hm : g.player.mana < s.mana_cost := by
    rw [h]
    cases s <;> decide
  unfold Game.play_round Game.player_take_turn
  cases hw : g.assert_no_winner_yet with
  | error e => exact ⟨e, rfl⟩
  | ok u =>
    have hc : g.assert_player_can_cast s = .error .NotEnoughMana := by
      unfold Game.assert_player_can_cast
      rw [if_pos hm]
    rw [hc]
    exact ⟨.NotEnoughMana, rfl⟩

theorem DijkstraOptimizer.register_neighbor_of_error {o : DijkstraOptimizer}
    {cur : Node} {s : Spell} {e : GameError}
    (h : cur.game_state.play_round s = .error e) :
    o.register_neighbor cur s = o := by
  unfold DijkstraOptimizer.register_neighbor
  rw [h]

/-- Claim C8: a duel whose caster starts with 0 resource (every move costs
more) makes the search terminate immediately with the explicit no-solution
answer: for every positive amount of fuel the result is done none, which
is distinct from done (some 0). -/
theorem c8_no_mana_no_solution : ∀ (g : Game) (fuel : Nat),
    g.player.mana = 0 → 0 < fuel → search g fuel = SearchStep.done none := by
  intro g fuel h hfuel
  have hreg : ∀ (o : DijkstraOptimizer) (s : Spell),
      o.register_neighbor { total_mana_cost := 0, game_state := g } s = o := by
    intro o s
    obtain ⟨e, he⟩ := Game.play_round_no_mana s h
    exact DijkstraOptimizer.register_neighbor_of_error he
  have hnew : DijkstraOptimizer.new g =
      { node_distances := [], unvisited := [] } := by
    unfold DijkstraOptimizer.new DijkstraOptimizer.register_neighbors SPELLS
    simp [List.foldl, hreg]
  obtain ⟨k, rfl⟩ : ∃ k, fuel = k + 1 := by
    cases fuel with
    | zero => omega
    | succ k => exact ⟨k, rfl⟩
  unfold search
  rw [hnew]
  rfl

/-- Claim C8 witness at a concrete input. -/
theorem c8_no_mana_no_solution_witness :
    search (Game.new (Player.new 10 0) (Boss.new 13 8) .Normal) 1 =
      SearchStep.done none :=
  c8_no_mana_no_solution (Game.new (Player.new 10 0) (Boss.new 13 8) .Normal) 1
    rfl Nat.one_pos

theorem tickState_eq (g : Game) (e : Effect) : tickState g e =
    match g.effect_timers.try_decrement e with
    | .error _ => g
    | .ok (timer, timers) =>
        let g1 := { g with effect_timers := timers }
        let pb := e.apply g1.player g1.boss
        let g2 := { g1 with player := pb.1, boss := pb.2 }
        if timer = 0 then
          let pb2 := e.deactivate g2.player g2.boss
          { g2 with player := pb2.1, boss := pb2.2 }
        else g2 := by
  unfold tickState Game.apply_effect_if_active
  cases h : g.effect_timers.try_decrement e with
  | error u => rfl
  | ok p =>
    obtain ⟨timer, timers⟩ := p
    simp only
    split_ifs <;> rw [TurnM.state_winner_result]

theorem activate_effect_timers (g : Game) (e : Effect) (d : Nat) :
    (g.activate_effect e d).effect_timers = g.effect_timers.set_timer e d := rfl

theorem tickState_timer_self (g : Game) (e : Effect) :
    (tickState g e).effect_timers.timer e = g.effect_timers.timer e - 1 := by
  rw [tickState_eq]
  unfold EffectTimers.try_decrement
  split_ifs with h
  · simp [h]
  · simp only
    split_ifs <;> exact EffectTimers.timer_set_timer_same _ _ _

/-- Claim C5: for every prolonged effect, after N consecutive half-turn
ticks without reactivation the timer equals the initial duration minus N
truncated at 0; and the standing Shield modifier (+7 caster defense over
the base value) is present exactly when the shield timer is positive:
ticking any effect preserves this synchronization (the bonus is removed
precisely on the tick whose decrement reaches 0, with no other
transition), and activating Shield from the inactive state with a
positive duration establishes it (the bonus is added exactly once). -/
theorem c5_timers_and_modifier : ∀ (g : Game) (e : Effect) (d N base : Nat),
    ((fun x => tickState x e)^[N] (g.activate_effect e d)).effect_timers.timer e
      = d - N ∧
    (ShieldSync g base → ShieldSync (tickState g e) base) ∧
    (ShieldSync g base → g.effect_timers.shield_timer = 0 → 0 < d →
      ShieldSync (g.activate_effect .Shield d) base) := by
  intro g e d N base
  refine ⟨?_, ?_, ?_⟩
  · induction N with
    | zero =>
      simp only [Function.iterate_zero, id, activate_effect_timers,
        EffectTimers.timer_set_timer_same, Nat.sub_zero]
    | succ n ih =>
      rw [Function.iterate_succ_apply', tickState_timer_self, ih]
      omega
  · intro hsync
    obtain ⟨⟨hp, ar, mn⟩, ⟨bhp, bdmg⟩, ⟨st, pt, rt⟩, di⟩ := g
    unfold ShieldSync at hsync ⊢
    simp only at hsync
    cases e with
    | Shield =>
      cases st with
      | zero => exact hsync
      | succ k =>
        cases k with
        | zero =>
          rw [show tickState ⟨⟨hp, ar, mn⟩, ⟨bhp, bdmg⟩, ⟨1, pt, rt⟩, di⟩ .Shield =
              ⟨⟨hp, ar - 7, mn⟩, ⟨bhp, bdmg⟩, ⟨0, pt, rt⟩, di⟩ from by
            rw [tickState_eq]
            rfl]
          simp only at hsync ⊢
          simp at hsync ⊢
          omega
        | succ m =>
          rw [show tickState ⟨⟨hp, ar, mn⟩, ⟨bhp, bdmg⟩, ⟨m + 2, pt, rt⟩, di⟩ .Shield =
              ⟨⟨hp, ar, mn⟩, ⟨bhp, bdmg⟩, ⟨m + 1, pt, rt⟩, di⟩ from by
            rw [tickState_eq]
            rfl]
          simpa using hsync
    | Poison =>
      cases pt with
      | zero => exact hsync
      | succ k =>
        cases k with
        | zero =>
          rw [show tickState ⟨⟨hp, ar, mn⟩, ⟨bhp, bdmg⟩, ⟨st, 1, rt⟩, di⟩ .Poison =
              ⟨⟨hp, ar, mn⟩, ⟨deal_damage bhp 3, bdmg⟩, ⟨st, 0, rt⟩, di⟩ from by
            rw [tickState_eq]
            rfl]
          exact hsync
        | succ m =>
          rw [show tickState ⟨⟨hp, ar, mn⟩, ⟨bhp, bdmg⟩, ⟨st, m + 2, rt⟩, di⟩ .Poison =
              ⟨⟨hp, ar, mn⟩, ⟨deal_damage bhp 3, bdmg⟩, ⟨st, m + 1, rt⟩, di⟩ from by
            rw [tickState_eq]
            rfl]
          exact hsync
    | Recharge =>
      cases rt with
      | zero => exact hsync
      | succ k =>
        cases k with
        | zero =>
          rw [show tickState ⟨⟨hp, ar, mn⟩, ⟨bhp, bdmg⟩, ⟨st, pt, 1⟩, di⟩ .Recharge =
              ⟨⟨hp, ar, mn + 101⟩, ⟨bhp, bdmg⟩, ⟨st, pt, 0⟩, di⟩ from by
            rw [tickState_eq]
            rfl]
          exact hsync
        | succ m =>
          rw [show tickState ⟨⟨hp, ar, mn⟩, ⟨bhp, bdmg⟩, ⟨st, pt, m + 2⟩, di⟩ .Recharge =
              ⟨⟨hp, ar, mn + 101⟩, ⟨bhp, bdmg⟩, ⟨st, pt, m + 1⟩, di⟩ from by
            rw [tickState_eq]
            rfl]
          exact hsync
  · intro hsync hst hd
    obtain ⟨⟨hp, ar, mn⟩, ⟨bhp, bdmg⟩, ⟨st, pt, rt⟩, di⟩ := g
    simp only at hst
    subst hst
    rw [show (⟨⟨hp, ar, mn⟩, ⟨bhp, bdmg⟩, ⟨0, pt, rt⟩, di⟩ : Game).activate_effect
        .Shield d = ⟨⟨hp, ar + 7, mn⟩, ⟨bhp, bdmg⟩, ⟨d, pt, rt⟩, di⟩ from rfl]
    unfold ShieldSync at hsync ⊢
    simp only at hsync ⊢
    rw [if_pos hd]
    simp at hsync
    omega

/-- Claim C5 witness at a concrete input. -/
theorem c5_timers_and_modifier_witness :
    ((fun x => tickState x Effect.Shield)^[2]
        ((Game.new (Player.new 50 500) (Boss.new 51 9) .Normal).activate_effect
          .Shield 6)).effect_timers.timer .Shield = 4 ∧
    ShieldSync (tickState (Game.new (Player.new 50 500) (Boss.new 51 9) .Normal)
      .Shield) 0 ∧
    ShieldSync ((Game.new (Player.new 50 500) (Boss.new 51 9) .Normal).activate_effect
      .Shield 6) 0 := by
  refine ⟨?_, ?_, ?_⟩
  · exact (c5_timers_and_modifier (Game.new (Player.new 50 500) (Boss.new 51 9) .Normal)
      .Shield 6 2 0).1
  · exact (c5_timers_and_modifier (Game.new (Player.new 50 500) (Boss.new 51 9) .Normal)
      .Shield 6 2 0).2.1 (by unfold ShieldSync; decide)
  · exact (c5_timers_and_modifier (Game.new (Player.new 50 500) (Boss.new 51 9) .Normal)
      .Shield 6 2 0).2.2 (by unfold ShieldSync; decide) rfl (by decide)

/-! Lemmas about the heap model popMax. -/

theorem Ordering.then_lt (x : Ordering) : Ordering.then .lt x = .lt := rfl

theorem Ordering.then_gt (x : Ordering) : Ordering.then .gt x = .gt := rfl

theorem Ordering.then_eq (x : Ordering) : Ordering.then .eq x = x := rfl

theorem Node.cmp_lt_cost {a b : Node} (h : a.cmp b = .lt) :
    b.total_mana_cost ≤ a.total_mana_cost := by
  unfold Node.cmp at h
  rcases hc : compare b.total_mana_cost a.total_mana_cost with _ | _ | _
  · exact le_of_lt (Nat.compare_eq_lt.mp hc)
  · exact le_of_eq (Nat.compare_eq_eq.mp hc)
  · rw [hc, Ordering.then_gt] at h
    exact absurd h (by simp)

theorem Node.cmp_not_lt_cost {a b : Node} (h : a.cmp b ≠ .lt) :
    a.total_mana_cost ≤ b.total_mana_cost := by
  unfold Node.cmp at h
  rcases hc : compare b.total_mana_cost a.total_mana_cost with _ | _ | _
  · rw [hc, Ordering.then_lt] at h
    exact absurd rfl h
  · exact le_of_eq (Nat.compare_eq_eq.mp hc).symm
  · exact le_of_lt (Nat.compare_eq_gt.mp hc)

theorem popMax_eq_none {H : List Node} (h : popMax H = none) : H = [] := by
  cases H with
  | nil => rfl
  | cons n t =>
    unfold popMax at h
    rcases hp : popMax t with _ | ⟨m, r1⟩ <;> simp only [hp] at h
    · simp at h
    · split_ifs at h

theorem popMax_mem {H : List Node} {n : Node} {rest : List Node}
    (h : popMax H = some (n, rest)) : n ∈ H := by
  induction H generalizing n rest with
  | nil => simp [popMax] at h
  | cons x t ih =>
    unfold popMax at h
    rcases hp : popMax t with _ | ⟨m, r1⟩ <;> simp only [hp] at h
    · simp at h
      simp [h.1]
    · split_ifs at h with hcmp <;> simp at h
      · obtain ⟨rfl, rfl⟩ := h
        exact List.mem_cons_of_mem x (ih hp)
      · obtain ⟨rfl, rfl⟩ := h
        exact List.mem_cons_self x t

theorem popMax_rest_subset {H : List Node} {n : Node} {rest : List Node}
    (h : popMax H = some (n, rest)) : ∀ x ∈ rest, x ∈ H := by
  induction H generalizing n rest with
  | nil => simp [popMax] at h
  | cons y t ih =>
    unfold popMax at h
    rcases hp : popMax t with _ | ⟨m, r1⟩ <;> simp only [hp] at h
    · simp at h
      obtain ⟨rfl, rfl⟩ := h
      intro x hx
      simp at hx
    · split_ifs at h with hcmp <;> simp at h
      · obtain ⟨rfl, rfl⟩ := h
        intro x hx
        rcases List.mem_cons.mp hx with hx | hx
        · simp [hx]
        · exact List.mem_cons_of_mem y (ih hp x hx)
      · obtain ⟨rfl, rfl⟩ := h
        intro x hx
        exact List.mem_cons_of_mem y hx

theorem popMax_mem_of_ne {H : List Node} {n : Node} {rest : List Node}
    (h : popMax H = some (n, rest)) : ∀ x ∈ H, x ≠ n → x ∈ rest := by
  induction H generalizing n rest with
  | nil => simp [popMax] at h
  | cons y t ih =>
    unfold popMax at h
    rcases hp : popMax t with _ | ⟨m, r1⟩ <;> simp only [hp] at h
    · simp at h
      obtain ⟨rfl, rfl⟩ := h
      intro x hx hne
      rcases List.mem_cons.mp hx with hx | hx
      · exact absurd hx hne
      · rw [popMax_eq_none hp] at hx
        simp at hx
    · split_ifs at h with hcmp <;> simp at h
      · obtain ⟨rfl, rfl⟩ := h
        intro x hx hne
        rcases List.mem_cons.mp hx with hx | hx
        · simp [hx]
        · exact List.mem_cons_of_mem y (ih hp x hx hne)
      · obtain ⟨rfl, rfl⟩ := h
        intro x hx hne
        rcases List.mem_cons.mp hx with hx | hx
        · exact absurd hx hne
        · exact hx

theorem popMax_min_cost {H : List Node} {n : Node} {rest : List Node}
    (h : popMax H = some (n, rest)) :
    ∀ x ∈ H, n.total_mana_cost ≤ x.total_mana_cost := by
  induction H generalizing n rest with
  | nil => simp [popMax] at h
  | cons y t ih =>
    unfold popMax at h
    rcases hp : popMax t with _ | ⟨m, r1⟩ <;> simp only [hp] at h
    · simp at h
      obtain ⟨rfl, rfl⟩ := h
      intro x hx
      rcases List.mem_cons.mp hx with hx | hx
      · rw [hx]
      · rw [popMax_eq_none hp] at hx
        simp at hx
    · split_ifs at h with hcmp <;> simp at h
      · obtain ⟨rfl, rfl⟩ := h
        intro x hx
        rcases List.mem_cons.mp hx with hx | hx
        · rw [hx]
          exact Node.cmp_lt_cost hcmp
        · exact ih hp x hx
      · obtain ⟨rfl, rfl⟩ := h
        intro x hx
        rcases List.mem_cons.mp hx with hx | hx
        · rw [hx]
        · exact le_trans (Node.cmp_not_lt_cost hcmp) (ih hp x hx)

/-! The winner reported by a half-turn or a round agrees with the derived
winner of the returned state. -/

/-- Error results of a TurnM computation carry a state whose derived
winner is the reported one. -/
def ErrCarries (m : TurnM) : Prop :=
  ∀ w g1, m = .error (w, g1) → g1.winner = some w

theorem errCarries_winner_result (g : Game) : ErrCarries g.winner_result := by
  intro w g1 h
  obtain ⟨rfl, hw⟩ := Game.winner_result_error h
  exact hw

theorem errCarries_apply_effect (g : Game) (e : Effect) :
    ErrCarries (g.apply_effect_if_active e) := by
  intro w g1 h
  unfold Game.apply_effect_if_active at h
  rcases hd : g.effect_timers.try_decrement e with _ | ⟨timer, timers⟩ <;>
    simp only [hd] at h
  · simp at h
  · exact errCarries_winner_result _ w g1 h

theorem errCarries_bind {m : TurnM} {f : Game → TurnM}
    (hm : ErrCarries m) (hf : ∀ g, ErrCarries (f g)) : ErrCarries (m >>= f) := by
  intro w g1 h
  cases hm1 : m with
  | error p =>
    obtain ⟨w0, g0⟩ := p
    rw [hm1] at h
    rw [show (Except.error (w0, g0) >>= f : TurnM) = .error (w0, g0) from rfl] at h
    simp at h
    obtain ⟨rfl, rfl⟩ := h
    exact hm _ _ hm1
  | ok g0 =>
    rw [hm1] at h
    rw [show (Except.ok g0 >>= f : TurnM) = f g0 from rfl] at h
    exact hf g0 w g1 h

theorem errCarries_apply_active_effects (g : Game) :
    ErrCarries g.apply_active_effects := by
  unfold Game.apply_active_effects
  exact errCarries_bind (errCarries_apply_effect g .Shield)
    (fun g1 => errCarries_bind (errCarries_apply_effect g1 .Poison)
      (fun g2 => errCarries_apply_effect g2 .Recharge))

theorem errCarries_difficulty (g : Game) :
    ErrCarries g.apply_player_difficulty_modifier := by
  unfold Game.apply_player_difficulty_modifier
  split_ifs <;> exact errCarries_winner_result _

theorem errCarries_player_cast_spell (g : Game) (s : Spell) :
    ErrCarries (g.player_cast_spell s) :=
  errCarries_winner_result _

theorem errCarries_boss_attack (g : Game) : ErrCarries g.boss_attack :=
  errCarries_winner_result _

/-- Results of a TurnM computation ending in a winner check: ok states have
no derived winner. -/
theorem Game.winner_result_ok_winner {g g1 : Game} (h : g.winner_result = .ok g1) :
    g1.winner = none := by
  obtain ⟨h1, h2⟩ := Game.winner_result_ok h
  rw [h1]
  exact h2

theorem ok_no_winner_bind {m : TurnM} {f : Game → TurnM} {g1 : Game}
    (hf : ∀ g g2, f g = .ok g2 → g2.winner = none)
    (h : (m >>= f) = .ok g1) : g1.winner = none := by
  cases hm1 : m with
  | error p =>
    obtain ⟨w0, g0⟩ := p
    rw [hm1] at h
    rw [show (Except.error (w0, g0) >>= f : TurnM) = .error (w0, g0) from rfl] at h
    simp at h
  | ok g0 =>
    rw [hm1] at h
    rw [show (Except.ok g0 >>= f : TurnM) = f g0 from rfl] at h
    exact hf g0 g1 h

theorem toOutcome_winner {m : TurnM} {g1 : Game} {w : Option Winner}
    (hok : ∀ g2, m = .ok g2 → g2.winner = none)
    (herr : ErrCarries m)
    (h : TurnM.toOutcome m = (g1, w)) : g1.winner = w := by
  cases hm : m with
  | error p =>
    obtain ⟨w0, g0⟩ := p
    rw [hm] at h
    unfold TurnM.toOutcome at h
    simp at h
    obtain ⟨rfl, rfl⟩ := h
    exact herr w0 g0 hm
  | ok g0 =>
    rw [hm] at h
    unfold TurnM.toOutcome at h
    simp at h
    obtain ⟨rfl, rfl⟩ := h
    exact hok g0 hm

theorem Game.player_take_turn_winner {g g1 : Game} {s : Spell} {w : Option Winner}
    (h : g.player_take_turn s = .ok (g1, w)) : g1.winner = w := by
  unfold Game.player_take_turn at h
  rcases h1 : g.assert_no_winner_yet with _ | u <;> simp only [h1] at h
  · simp at h
  rcases h2 : g.assert_player_can_cast s with _ | u2 <;> simp only [h2] at h
  · simp at h
  simp at h
  refine toOutcome_winner ?_ ?_ h
  · intro g2 hm
    refine ok_no_winner_bind ?_ hm
    intro ga g2 hchain
    refine ok_no_winner_bind ?_ hchain
    intro gb g2 hcast
    exact Game.winner_result_ok_winner hcast
  · exact errCarries_bind (errCarries_difficulty g)
      (fun ga => errCarries_bind (errCarries_apply_active_effects ga)
        (fun gb => errCarries_player_cast_spell gb s))

theorem Game.boss_take_turn_winner {g g1 : Game} {w : Option Winner}
    (h : g.boss_take_turn = .ok (g1, w)) : g1.winner = w := by
  unfold Game.boss_take_turn at h
  rcases h1 : g.assert_no_winner_yet with _ | u <;> simp only [h1] at h
  · simp at h
  simp at h
  refine toOutcome_winner ?_ ?_ h
  · intro g2 hm
    refine ok_no_winner_bind ?_ hm
    intro ga g2 hatk
    exact Game.winner_result_ok_winner hatk
  · exact errCarries_bind (errCarries_apply_active_effects g)
      (fun ga => errCarries_boss_attack ga)

theorem Game.play_round_winner {g g1 : Game} {s : Spell} {w : Option Winner}
    (h : g.play_round s = .ok (g1, w)) : g1.winner = w := by
  unfold Game.play_round at h
  rcases h1 : g.player_take_turn s with _ | ⟨ga, wa⟩ <;> simp only [h1] at h
  · simp at h
  rcases wa with _ | wa
  · exact Game.boss_take_turn_winner h
  · simp at h
    obtain ⟨rfl, rfl⟩ := h
    exact Game.player_take_turn_winner h1

/-! Claim C10: nodes on the frontier never hold a boss-winning state. -/

def heapBossFree (H : List Node) : Prop :=
  ∀ nd ∈ H, nd.game_state.winner ≠ some Winner.Boss

theorem heapBossFree_register_neighbor {o : DijkstraOptimizer} {cur : Node}
    {s : Spell} (h : heapBossFree o.unvisited) :
    heapBossFree (o.register_neighbor cur s).unvisited := by
  unfold DijkstraOptimizer.register_neighbor
  rcases hr : cur.game_state.play_round s with _ | ⟨g1, w⟩ <;> dsimp only
  · exact h
  · split_ifs with hb himp
    · exact h
    · intro nd hnd
      rcases List.mem_cons.mp hnd with hnd | hnd
      · rw [hnd]
        dsimp only
        rw [Game.play_round_winner hr]
        exact hb
      · exact h nd hnd
    · exact h

theorem heapBossFree_foldl {cur : Node} : ∀ (ls : List Spell) (o : DijkstraOptimizer),
    heapBossFree o.unvisited →
    heapBossFree ((ls.foldl (fun acc s => acc.register_neighbor cur s) o)).unvisited := by
  intro ls
  induction ls with
  | nil => exact fun o h => h
  | cons s ls ih =>
    intro o h
    exact ih _ (heapBossFree_register_neighbor h)

theorem heapBossFree_register_neighbors {o : DijkstraOptimizer} {cur : Node}
    (h : heapBossFree o.unvisited) :
    heapBossFree (o.register_neighbors cur).unvisited :=
  heapBossFree_foldl SPELLS o h

theorem heapBossFree_new (g : Game) :
    heapBossFree (DijkstraOptimizer.new g).unvisited :=
  heapBossFree_register_neighbors (by intro nd hnd; simp at hnd)

def SearchStep.hitBossBranch : SearchStep → Bool
  | .bossOnHeap => true
  | _ => false

theorem find_no_boss_branch : ∀ (fuel : Nat) (o : DijkstraOptimizer),
    heapBossFree o.unvisited →
    (DijkstraOptimizer.find_lowest_mana_cost_to_win fuel o).hitBossBranch = false := by
  intro fuel
  induction fuel with
  | zero => exact fun o h => rfl
  | succ n ih =>
    intro o h
    unfold DijkstraOptimizer.find_lowest_mana_cost_to_win
    rcases hp : popMax o.unvisited with _ | ⟨node, rest⟩ <;> try dsimp only
    · rfl
    · rcases hw : node.game_state.winner with _ | w <;> try dsimp only
      · rcases hd : lookupDist o.node_distances node.game_state with _ | d <;>
          try dsimp only
        · rfl
        · have hrest : heapBossFree rest :=
            fun nd hnd => h nd (popMax_rest_subset hp nd hnd)
          split_ifs with hlt
          · exact ih _ hrest
          · exact ih _ (heapBossFree_register_neighbors hrest)
      · cases w <;> try dsimp only
        · rfl
        · exact absurd hw (h node (popMax_mem hp))

def heapNoBossWinB (H : List Node) : Bool :=
  H.all (fun nd => decide (nd.game_state.winner ≠ some Winner.Boss))

/-- Claim C10: every node pushed onto the search frontier holds a state
whose derived winner is none or the caster (stated here for the initial
frontier, and maintained by every loop step through heapBossFree);
consequently the loop never executes the branch for a popped boss-winning
node (the unreachable panic of the source), for every initial state and
any amount of fuel. -/
theorem c10_boss_branch_unreachable : ∀ (g : Game) (fuel : Nat),
    heapNoBossWinB (DijkstraOptimizer.new g).unvisited = true ∧
    (search g fuel).hitBossBranch = false := by
  intro g fuel
  constructor
  · unfold heapNoBossWinB
    rw [List.all_eq_true]
    intro nd hnd
    exact decide_eq_true (heapBossFree_new g nd hnd)
  · exact find_no_boss_branch fuel _ (heapBossFree_new g)

/-! Claim C1: correctness of the optimal-cost search.  The development
below follows the classical Dijkstra argument: an invariant ties the
frontier and the recorded distances to the costs of real move sequences,
a cover lemma shows every path leaving the settled region is tracked by a
frontier node of no larger cost, and the loop lemma concludes that a
popped winning node carries the least winning cost. -/

theorem spell_mem_SPELLS : ∀ s : Spell, s ∈ SPELLS := by
  intro s
  cases s <;> simp [SPELLS]

theorem pathCost_nil : pathCost [] = 0 := rfl

theorem pathCost_snoc (l : List Spell) (s : Spell) :
    pathCost (l ++ [s]) = pathCost l + s.mana_cost := by
  simp [pathCost]

theorem runPath_snoc (g : Game) (l : List Spell) (s : Spell) :
    runPath g (l ++ [s]) = (runPath g l).bind (fun u => neighborState u s) := by
  induction l generalizing g with
  | nil =>
    show runPath g [s] = (some g).bind (fun u => neighborState u s)
    cases hn : neighborState g s <;> simp [runPath, hn]
  | cons a l ih =>
    show runPath g (a :: (l ++ [s])) = _
    cases hn : neighborState g a <;> simp [runPath, hn, ih]

theorem neighborState_some {g g1 : Game} {s : Spell}
    (h : neighborState g s = some g1) :
    ∃ w, g.play_round s = .ok (g1, w) ∧ w ≠ some Winner.Boss := by
  unfold neighborState at h
  rcases hr : g.play_round s with _ | ⟨ga, w⟩ <;> rw [hr] at h <;> simp at h
  obtain ⟨hb, rfl⟩ := h
  exact ⟨w, rfl, hb⟩

theorem Game.play_round_start_winner {g : Game} {s : Spell}
    {x : Game × Option Winner} (h : g.play_round s = .ok x) : g.winner = none := by
  by_cases hw : g.winner.isSome
  · exfalso
    have hnw : g.assert_no_winner_yet = .error .GameFinished := by
      unfold Game.assert_no_winner_yet
      rw [if_pos hw]
    unfold Game.play_round Game.player_take_turn at h
    rw [hnw] at h
    simp at h
  · exact Option.not_isSome_iff_eq_none.mp hw

theorem winner_none_of_run {g0 t : Game} {l : List Spell}
    (hne : l ≠ []) (hrun : runPath g0 l = some t) : g0.winner = none := by
  cases l with
  | nil => exact absurd rfl hne
  | cons s l1 =>
    unfold runPath at hrun
    rcases hn : neighborState g0 s with _ | u
    · rw [hn] at hrun
      simp at hrun
    · obtain ⟨w, hok, _⟩ := neighborState_some hn
      exact Game.play_round_start_winner hok

theorem lookupDist_cons (g : Game) (c : Nat) (D : List (Game × Nat)) (v : Game) :
    lookupDist ((g, c) :: D) v = if g = v then some c else lookupDist D v := rfl

/-- The loop invariant of the optimizer, relative to the initial state g0
and a ghost set S of settled states.  The slot v together with pending
tracks the frontier obligations of the state currently being expanded:
edges of v whose spell is still pending have not been registered yet. -/
structure SearchInv (g0 : Game) (S : Game → Prop) (o : DijkstraOptimizer)
    (v : Game) (pending : List Spell) : Prop where
  reachH : ∀ nd ∈ o.unvisited, ∃ l, l ≠ [] ∧ runPath g0 l = some nd.game_state ∧
    pathCost l = nd.total_mana_cost
  distH : ∀ nd ∈ o.unvisited, ∃ dv,
    lookupDist o.node_distances nd.game_state = some dv ∧ dv ≤ nd.total_mana_cost
  reachD : ∀ w c, lookupDist o.node_distances w = some c → c ∈ reachSet g0 w
  startS : S g0
  settledReach : ∀ u, S u → (reachSet g0 u).Nonempty
  settledNoWin : ∀ u, S u → u ≠ g0 → u.winner = none
  settledDist : ∀ u, S u → u ≠ g0 →
    lookupDist o.node_distances u = some (sInf (reachSet g0 u))
  frontier : ∀ u, S u → ∀ s w, neighborState u s = some w →
    S w ∨ (u = v ∧ s ∈ pending) ∨
    ∃ dw, lookupDist o.node_distances w = some dw ∧
      dw ≤ sInf (reachSet g0 u) + s.mana_cost
  live : ∀ w dw, lookupDist o.node_distances w = some dw → ¬ S w →
    ∃ nd ∈ o.unvisited, nd.game_state = w ∧ nd.total_mana_cost = dw

/-- Discharging one pending spell without touching the optimizer. -/
theorem searchInv_filter {g0 : Game} {S : Game → Prop} {o : DijkstraOptimizer}
    {v : Game} {pending : List Spell} {s : Spell}
    (inv : SearchInv g0 S o v pending)
    (hobl : s ∈ pending → ∀ w, neighborState v s = some w →
      S w ∨ ∃ dw, lookupDist o.node_distances w = some dw ∧
        dw ≤ sInf (reachSet g0 v) + s.mana_cost) :
    SearchInv g0 S o v (pending.filter (fun x => x ≠ s)) := by
  refine ⟨inv.reachH, inv.distH, inv.reachD, inv.startS, inv.settledReach,
    inv.settledNoWin, inv.settledDist, ?_, inv.live⟩
  intro u hu s1 w hn
  rcases inv.frontier u hu s1 w hn with h | ⟨huv, hsp⟩ | h
  · exact Or.inl h
  · by_cases hss : s1 = s
    · subst hss
      subst huv
      rcases hobl hsp w hn with h | h
      · exact Or.inl h
      · exact Or.inr (Or.inr h)
    · exact Or.inr (Or.inl ⟨huv, List.mem_filter.mpr ⟨hsp, by simp [hss]⟩⟩)
  · exact Or.inr (Or.inr h)

/-- Registering one neighbor of the node being expanded preserves the
invariant and discharges the corresponding pending obligation. -/
theorem searchInv_register_neighbor {g0 : Game} {S : Game → Prop}
    {o : DijkstraOptimizer} {pending : List Spell} {s : Spell} {cur : Node}
    (inv : SearchInv g0 S o cur.game_state pending)
    (hc : cur.total_mana_cost ∈ reachSet g0 cur.game_state)
    (hcp : s ∈ pending → cur.total_mana_cost ≤ sInf (reachSet g0 cur.game_state)) :
    SearchInv g0 S (o.register_neighbor cur s) cur.game_state
      (pending.filter (fun x => x ≠ s)) := by
  unfold DijkstraOptimizer.register_neighbor
  rcases hr : cur.game_state.play_round s with _ | ⟨g1, w⟩ <;> try dsimp only
  · -- the move is illegal: no edge, nothing changes
    refine searchInv_filter inv ?_
    intro hsp w hn
    unfold neighborState at hn
    rw [hr] at hn
    simp at hn
  · split_ifs with hb himp
    · -- the round loses: no edge, nothing changes
      refine searchInv_filter inv ?_
      intro hsp w1 hn
      unfold neighborState at hn
      rw [hr] at hn
      simp [hb] at hn
    · -- improvement: push the neighbor and record the new distance
      have hn : neighborState cur.game_state s = some g1 := by
        unfold neighborState
        rw [hr]
        simp [hb]
      obtain ⟨l0, hl0run, hl0cost⟩ := hc
      have hpushrun : runPath g0 (l0 ++ [s]) = some g1 := by
        rw [runPath_snoc, hl0run]
        simpa using hn
      have hpushcost : pathCost (l0 ++ [s]) =
          cur.total_mana_cost + s.mana_cost := by
        rw [pathCost_snoc, hl0cost]
      have hpushreach : cur.total_mana_cost + s.mana_cost ∈ reachSet g0 g1 :=
        ⟨l0 ++ [s], hpushrun, hpushcost⟩
      have himp1 : ∀ dold, lookupDist o.node_distances g1 = some dold →
          cur.total_mana_cost + s.mana_cost < dold := by
        intro dold hd
        rw [hd] at himp
        simpa using himp
      have hSg1 : S g1 → g1 = g0 := by
        intro hS1
        by_contra hne
        have hd := inv.settledDist g1 hS1 hne
        have hlt := himp1 _ hd
        have hle : sInf (reachSet g0 g1) ≤ cur.total_mana_cost + s.mana_cost :=
          Nat.sInf_le hpushreach
        omega
      refine ⟨?_, ?_, ?_, inv.startS, inv.settledReach, inv.settledNoWin,
        ?_, ?_, ?_⟩
      · -- reachH
        intro nd hnd
        rcases List.mem_cons.mp hnd with hnd | hnd
        · refine ⟨l0 ++ [s], by simp, ?_, ?_⟩
          · rw [hnd]
            exact hpushrun
          · rw [hnd]
            exact hpushcost
        · exact inv.reachH nd hnd
      · -- distH
        intro nd hnd
        rcases List.mem_cons.mp hnd with hnd | hnd
        · refine ⟨cur.total_mana_cost + s.mana_cost, ?_, ?_⟩
          · rw [hnd]
            simp [lookupDist_cons]
          · rw [hnd]
        · obtain ⟨dv, hdv, hle⟩ := inv.distH nd hnd
          by_cases heq : nd.game_state = g1
          · refine ⟨cur.total_mana_cost + s.mana_cost, ?_, ?_⟩
            · rw [heq]
              simp [lookupDist_cons]
            · have := himp1 dv (heq ▸ hdv)
              omega
          · refine ⟨dv, ?_, hle⟩
            rw [lookupDist_cons, if_neg (fun he => heq he.symm)]
            exact hdv
      · -- reachD
        intro w1 c1 hl
        rw [lookupDist_cons] at hl
        split_ifs at hl with he
        · simp at hl
          rw [← hl, ← he]
          exact hpushreach
        · exact inv.reachD w1 c1 hl
      · -- settledDist
        intro u hu hne
        rw [lookupDist_cons]
        rw [if_neg (fun he => hne (by rw [← he, hSg1 (he ▸ hu)]))]
        exact inv.settledDist u hu hne
      · -- frontier
        intro u hu s1 w1 hn1
        rcases inv.frontier u hu s1 w1 hn1 with h | ⟨huv, hsp⟩ | ⟨dw, hdw, hbound⟩
        · exact Or.inl h
        · by_cases hss : s1 = s
          · right
            right
            have hw1 : w1 = g1 := by
              rw [huv, hss] at hn1
              rw [hn1] at hn
              exact Option.some.inj hn
            rw [hss, huv]
            refine ⟨cur.total_mana_cost + s.mana_cost, ?_, ?_⟩
            · rw [hw1]
              simp [lookupDist_cons]
            · have := hcp (hss ▸ hsp)
              omega
          · exact Or.inr (Or.inl ⟨huv, List.mem_filter.mpr ⟨hsp, by simp [hss]⟩⟩)
        · right
          right
          by_cases heq : w1 = g1
          · refine ⟨cur.total_mana_cost + s.mana_cost, ?_, ?_⟩
            · rw [heq]
              simp [lookupDist_cons]
            · have := himp1 dw (heq ▸ hdw)
              omega
          · refine ⟨dw, ?_, hbound⟩
            rw [lookupDist_cons, if_neg (fun he => heq he.symm)]
            exact hdw
      · -- live
        intro w1 dw1 hl hnS
        rw [lookupDist_cons] at hl
        split_ifs at hl with he
        · simp at hl
          exact ⟨Node.mk (cur.total_mana_cost + s.mana_cost) g1,
            List.mem_cons_self _ _, he, hl⟩
        · obtain ⟨nd, hnd, hst, hco⟩ := inv.live w1 dw1 hl hnS
          exact ⟨nd, List.mem_cons_of_mem _ hnd, hst, hco⟩
    · -- no improvement: nothing changes, the recorded distance covers the edge
      refine searchInv_filter inv ?_
      intro hsp w1 hn1
      have hw1 : w1 = g1 := by
        unfold neighborState at hn1
        rw [hr] at hn1
        simp [hb] at hn1
        exact hn1.symm
      subst hw1
      rcases hd : lookupDist o.node_distances w1 with _ | dold
      · exfalso
        apply himp
        rw [hd]
      · right
        refine ⟨dold, rfl, ?_⟩
        rw [hd] at himp
        simp at himp
        have := hcp hsp
        omega

/-- Registering a list of spells discharges all pending obligations that
the list covers. -/
theorem searchInv_foldl {g0 : Game} {S : Game → Prop} {cur : Node} :
    ∀ (ls : List Spell) (o : DijkstraOptimizer) (pending : List Spell),
    SearchInv g0 S o cur.game_state pending →
    cur.total_mana_cost ∈ reachSet g0 cur.game_state →
    (pending ≠ [] → cur.total_mana_cost ≤ sInf (reachSet g0 cur.game_state)) →
    (∀ x ∈ pending, x ∈ ls) →
    SearchInv g0 S (ls.foldl (fun acc s => acc.register_neighbor cur s) o)
      cur.game_state [] := by
  intro ls
  induction ls with
  | nil =>
    intro o pending inv hc hcp hsub
    have hpe : pending = [] :=
      List.eq_nil_iff_forall_not_mem.mpr (fun x hx => by simpa using hsub x hx)
    rw [hpe] at inv
    exact inv
  | cons s ls ih =>
    intro o pending inv hc hcp hsub
    simp only [List.foldl_cons]
    refine ih _ _
      (searchInv_register_neighbor inv hc
        (fun hsp => hcp (fun hnil => by rw [hnil] at hsp; simp at hsp)))
      hc ?_ ?_
    · intro hne
      apply hcp
      intro hnil
      rw [hnil] at hne
      simp at hne
    · intro x hx
      obtain ⟨hxp, hxs⟩ := List.mem_filter.mp hx
      rcases List.mem_cons.mp (hsub x hxp) with h | h
      · exfalso
        rw [h] at hxs
        simp at hxs
      · exact h

theorem searchInv_register_neighbors {g0 : Game} {S : Game → Prop}
    {o : DijkstraOptimizer} {pending : List Spell} (cur : Node)
    (inv : SearchInv g0 S o cur.game_state pending)
    (hc : cur.total_mana_cost ∈ reachSet g0 cur.game_state)
    (hcp : pending ≠ [] → cur.total_mana_cost ≤ sInf (reachSet g0 cur.game_state)) :
    SearchInv g0 S (o.register_neighbors cur) cur.game_state [] :=
  searchInv_foldl SPELLS o pending inv hc hcp (fun x _ => spell_mem_SPELLS x)

/-- With no pending obligations the expansion slot is irrelevant. -/
theorem searchInv_changeV {g0 : Game} {S : Game → Prop} {o : DijkstraOptimizer}
    {v v1 : Game} (inv : SearchInv g0 S o v []) : SearchInv g0 S o v1 [] := by
  refine ⟨inv.reachH, inv.distH, inv.reachD, inv.startS, inv.settledReach,
    inv.settledNoWin, inv.settledDist, ?_, inv.live⟩
  intro u hu s w hn
  rcases inv.frontier u hu s w hn with h | ⟨_, hsp⟩ | h
  · exact Or.inl h
  · simp at hsp
  · exact Or.inr (Or.inr h)

/-- Removing heap nodes preserves the invariant as long as the live
entries of unsettled states survive. -/
theorem searchInv_shrink {g0 : Game} {S : Game → Prop}
    {D : List (Game × Nat)} {H rest : List Node} {v : Game} {p : List Spell}
    (inv : SearchInv g0 S ⟨D, H⟩ v p)
    (hsub : ∀ x ∈ rest, x ∈ H)
    (hlive : ∀ w dw, lookupDist D w = some dw → ¬ S w →
      ∃ nd ∈ rest, nd.game_state = w ∧ nd.total_mana_cost = dw) :
    SearchInv g0 S ⟨D, rest⟩ v p := by
  refine ⟨?_, ?_, inv.reachD, inv.startS, inv.settledReach, inv.settledNoWin,
    inv.settledDist, inv.frontier, hlive⟩
  · exact fun nd hnd => inv.reachH nd (hsub nd hnd)
  · exact fun nd hnd => inv.distH nd (hsub nd hnd)

/-- Cover lemma: every run of the engine from g0 that ends outside the
settled region is tracked by a frontier node of no larger cost. -/
theorem searchInv_cover {g0 : Game} {S : Game → Prop} {o : DijkstraOptimizer}
    {v : Game} (inv : SearchInv g0 S o v []) :
    ∀ (l : List Spell) (t : Game), runPath g0 l = some t → ¬ S t →
    ∃ nd ∈ o.unvisited, nd.total_mana_cost ≤ pathCost l := by
  intro l
  induction l using List.reverseRecOn with
  | nil =>
    intro t h hnS
    have ht : t = g0 := by
      unfold runPath at h
      exact (Option.some.inj h).symm
    rw [ht] at hnS
    exact absurd inv.startS hnS
  | append_singleton l s ih =>
    intro t h hnS
    rw [runPath_snoc] at h
    rcases hu : runPath g0 l with _ | u
    · rw [hu] at h
      simp at h
    · rw [hu] at h
      rw [show (some u).bind (fun x => neighborState x s) = neighborState u s
        from rfl] at h
      by_cases hSu : S u
      · rcases inv.frontier u hSu s t h with hS | ⟨_, hsp⟩ | ⟨dw, hdw, hbound⟩
        · exact absurd hS hnS
        · simp at hsp
        · obtain ⟨nd, hnd, hstate, hcost⟩ := inv.live t dw hdw hnS
          refine ⟨nd, hnd, ?_⟩
          rw [hcost, pathCost_snoc]
          have h1 : sInf (reachSet g0 u) ≤ pathCost l := Nat.sInf_le ⟨l, hu, rfl⟩
          omega
      · obtain ⟨nd, hnd, hcost⟩ := ih u hu hSu
        refine ⟨nd, hnd, ?_⟩
        rw [pathCost_snoc]
        omega

/-- Partial correctness of the search loop: whenever the loop finishes
with a definite answer, a returned cost is the least cost of a winning
sequence, and a no-solution answer means no winning sequence exists. -/
theorem find_correct {g0 : Game} : ∀ (fuel : Nat) (o : DijkstraOptimizer)
    (S : Game → Prop), SearchInv g0 S o g0 [] →
    ∀ res, DijkstraOptimizer.find_lowest_mana_cost_to_win fuel o = .done res →
    (∀ c, res = some c → IsLeast (winCosts g0) c) ∧
    (res = none → ∀ l, ¬ WinningSeq g0 l) := by
  intro fuel
  induction fuel with
  | zero =>
    intro o S inv res h
    exact absurd h (by simp [DijkstraOptimizer.find_lowest_mana_cost_to_win])
  | succ n ih =>
    intro o S inv res h
    unfold DijkstraOptimizer.find_lowest_mana_cost_to_win at h
    rcases hp : popMax o.unvisited with _ | ⟨node, rest⟩ <;> rw [hp] at h <;>
      try dsimp only at h
    · -- empty frontier: the answer is none and no winning sequence exists
      simp at h
      constructor
      · intro c hc
        rw [hc] at h
        simp at h
      · intro _ l hwin
        obtain ⟨hlne, t, hrun, hwt⟩ := hwin
        have hg0 : g0.winner = none := winner_none_of_run hlne hrun
        have htne : t ≠ g0 := by
          intro he
          rw [he, hg0] at hwt
          simp at hwt
        have htnS : ¬ S t := by
          intro hS
          have := inv.settledNoWin t hS htne
          rw [this] at hwt
          simp at hwt
        obtain ⟨nd, hnd, _⟩ := searchInv_cover inv l t hrun htnS
        rw [popMax_eq_none hp] at hnd
        simp at hnd
    · rcases hw : node.game_state.winner with _ | w <;> rw [hw] at h <;>
        try dsimp only at h
      · -- no winner yet: stale entry or expansion
        rcases hd : lookupDist o.node_distances node.game_state with _ | d <;>
          rw [hd] at h <;> try dsimp only at h
        · simp at h
        · split_ifs at h with hlt
          · -- stale entry: a smaller distance is recorded, skip the node
            have hlive : ∀ w1 dw1,
                lookupDist o.node_distances w1 = some dw1 → ¬ S w1 →
                ∃ nd ∈ rest, nd.game_state = w1 ∧ nd.total_mana_cost = dw1 := by
              intro w1 dw1 hlk hnS
              obtain ⟨nd1, hnd1, hst1, hco1⟩ := inv.live w1 dw1 hlk hnS
              have hne : nd1 ≠ node := by
                intro he
                rw [he] at hst1 hco1
                rw [← hst1] at hlk
                rw [hd] at hlk
                have := Option.some.inj hlk
                omega
              exact ⟨nd1, popMax_mem_of_ne hp nd1 hnd1 hne, hst1, hco1⟩
            have inv1 : SearchInv g0 S ⟨o.node_distances, rest⟩ g0 [] :=
              searchInv_shrink inv (popMax_rest_subset hp) hlive
            exact ih _ S inv1 res h
          · -- expand the node
            obtain ⟨dv, hdv, hdvle⟩ := inv.distH node (popMax_mem hp)
            have hdd : dv = d := by
              rw [hdv] at hd
              exact Option.some.inj hd
            have hdc : d = node.total_mana_cost := by omega
            obtain ⟨l0, hl0ne, hl0run, hl0cost⟩ := inv.reachH node (popMax_mem hp)
            have hcreach : node.total_mana_cost ∈ reachSet g0 node.game_state :=
              ⟨l0, hl0run, hl0cost⟩
            by_cases hSv : S node.game_state
            · -- the state is already settled: re-registering changes nothing
              have hlive : ∀ w1 dw1,
                  lookupDist o.node_distances w1 = some dw1 → ¬ S w1 →
                  ∃ nd ∈ rest, nd.game_state = w1 ∧ nd.total_mana_cost = dw1 := by
                intro w1 dw1 hlk hnS
                obtain ⟨nd1, hnd1, hst1, hco1⟩ := inv.live w1 dw1 hlk hnS
                have hne : nd1 ≠ node := by
                  intro he
                  apply hnS
                  rw [← hst1, he]
                  exact hSv
                exact ⟨nd1, popMax_mem_of_ne hp nd1 hnd1 hne, hst1, hco1⟩
              have inv1 : SearchInv g0 S ⟨o.node_distances, rest⟩
                  node.game_state [] :=
                searchInv_changeV
                  (searchInv_shrink inv (popMax_rest_subset hp) hlive)
              have inv2 := searchInv_register_neighbors node inv1
                hcreach (fun hne => absurd rfl hne)
              exact ih _ S (searchInv_changeV inv2) res h
            · -- settle a new state: its cost is its optimal distance
              have hvg0 : node.game_state ≠ g0 := by
                intro he
                apply hSv
                rw [he]
                exact inv.startS
              have hge : sInf (reachSet g0 node.game_state) ≤
                  node.total_mana_cost := Nat.sInf_le hcreach
              have hle : node.total_mana_cost ≤
                  sInf (reachSet g0 node.game_state) := by
                have hnem : (reachSet g0 node.game_state).Nonempty := ⟨_, hcreach⟩
                obtain ⟨lm, hlmrun, hlmcost⟩ := Nat.sInf_mem hnem
                obtain ⟨nd1, hnd1, hcost1⟩ :=
                  searchInv_cover inv lm node.game_state hlmrun hSv
                calc node.total_mana_cost ≤ nd1.total_mana_cost :=
                      popMax_min_cost hp nd1 hnd1
                  _ ≤ pathCost lm := hcost1
                  _ = sInf (reachSet g0 node.game_state) := hlmcost
              have hsinf : sInf (reachSet g0 node.game_state) =
                  node.total_mana_cost := le_antisymm hge hle
              have inv1 : SearchInv g0 (fun x => S x ∨ x = node.game_state)
                  ⟨o.node_distances, rest⟩ node.game_state SPELLS := by
                refine ⟨?_, ?_, inv.reachD, Or.inl inv.startS, ?_, ?_, ?_, ?_, ?_⟩
                · exact fun nd hnd => inv.reachH nd (popMax_rest_subset hp nd hnd)
                · exact fun nd hnd => inv.distH nd (popMax_rest_subset hp nd hnd)
                · intro u hu
                  rcases hu with hu | hu
                  · exact inv.settledReach u hu
                  · rw [hu]
                    exact ⟨_, hcreach⟩
                · intro u hu hne
                  rcases hu with hu | hu
                  · exact inv.settledNoWin u hu hne
                  · rw [hu]
                    exact hw
                · intro u hu hne
                  rcases hu with hu | hu
                  · exact inv.settledDist u hu hne
                  · have hdvc : dv = node.total_mana_cost := by omega
                    rw [hu, hsinf, hdv, hdvc]
                · intro u hu s w1 hn1
                  rcases hu with hu | hu
                  · rcases inv.frontier u hu s w1 hn1 with h1 | ⟨_, hsp⟩ | h1
                    · exact Or.inl (Or.inl h1)
                    · simp at hsp
                    · exact Or.inr (Or.inr h1)
                  · exact Or.inr (Or.inl ⟨hu, spell_mem_SPELLS s⟩)
                · intro w1 dw1 hlk hnS
                  have hnS1 : ¬ S w1 := fun hh => hnS (Or.inl hh)
                  have hnev : w1 ≠ node.game_state := fun hh => hnS (Or.inr hh)
                  obtain ⟨nd1, hnd1, hst1, hco1⟩ := inv.live w1 dw1 hlk hnS1
                  have hne : nd1 ≠ node := by
                    intro he
                    apply hnev
                    rw [← hst1, he]
                  exact ⟨nd1, popMax_mem_of_ne hp nd1 hnd1 hne, hst1, hco1⟩
              have inv2 := searchInv_register_neighbors node inv1
                hcreach (fun _ => hle)
              exact ih _ _ (searchInv_changeV inv2) res h
      · cases w with
        | Player =>
          -- a winning node is popped: its cost is the answer
          simp at h
          constructor
          · intro c hc
            rw [hc] at h
            have hcc : node.total_mana_cost = c := Option.some.inj h
            constructor
            · obtain ⟨l, hlne, hrun, hcost⟩ := inv.reachH node (popMax_mem hp)
              exact ⟨l, ⟨hlne, node.game_state, hrun, hw⟩, by rw [hcost, hcc]⟩
            · intro k hk
              obtain ⟨l1, ⟨hl1ne, t, hrun1, hwt⟩, hcost1⟩ := hk
              have hg0 : g0.winner = none := winner_none_of_run hl1ne hrun1
              have htne : t ≠ g0 := by
                intro he
                rw [he, hg0] at hwt
                simp at hwt
              have htnS : ¬ S t := by
                intro hS
                have := inv.settledNoWin t hS htne
                rw [this] at hwt
                simp at hwt
              obtain ⟨nd1, hnd1, hcost2⟩ := searchInv_cover inv l1 t hrun1 htnS
              calc c = node.total_mana_cost := hcc.symm
                _ ≤ nd1.total_mana_cost := popMax_min_cost hp nd1 hnd1
                _ ≤ pathCost l1 := hcost2
                _ = k := hcost1
          · intro hnone
            rw [hnone] at h
            simp at h
        | Boss => simp at h

/-- The invariant holds right after the optimizer is constructed. -/
theorem searchInv_new (g0 : Game) :
    SearchInv g0 (fun w => w = g0) (DijkstraOptimizer.new g0) g0 [] := by
  have h0 : (0 : Nat) ∈ reachSet g0 g0 := ⟨[], rfl, rfl⟩
  have base : SearchInv g0 (fun w => w = g0)
      ⟨[], []⟩ g0 SPELLS := by
    refine ⟨?_, ?_, ?_, rfl, ?_, ?_, ?_, ?_, ?_⟩
    · intro nd hnd
      simp at hnd
    · intro nd hnd
      simp at hnd
    · intro w c hl
      simp [lookupDist] at hl
    · intro u hu
      rw [hu]
      exact ⟨0, h0⟩
    · intro u hu hne
      exact absurd hu hne
    · intro u hu hne
      exact absurd hu hne
    · intro u hu s w hn
      exact Or.inr (Or.inl ⟨hu, spell_mem_SPELLS s⟩)
    · intro w dw hl
      simp [lookupDist] at hl
  exact searchInv_register_neighbors ⟨0, g0⟩ base h0 (fun _ => Nat.zero_le _)

/-- Claim C1: for every initial DuelState, whenever the optimal-cost
search finishes, a returned cost Some c is exactly the least sum of move
costs over all sequences of legal caster moves (each round including the
forced free boss half-turn unless the caster half-turn already produced a
winner) that end in a caster victory, and a returned None means that no
such winning sequence exists.  The fuel parameter makes the unbounded
source loop structurally recursive; the statement quantifies over every
fuel at which the loop reaches its answer. -/
theorem c1_search_optimal : ∀ (g0 : Game) (fuel : Nat) (res : Option Nat),
    search g0 fuel = SearchStep.done res →
    (∀ c, res = some c → IsLeast (winCosts g0) c) ∧
    (res = none → ∀ l, ¬ WinningSeq g0 l) := by
  intro g0 fuel res h
  exact find_correct fuel _ _ (searchInv_new g0) res h

/-- Claim C1 witness: on the duel with caster HP 10 and mana 53 against a
boss with 1 HP, the search returns 53, which is the least winning cost;
on the duel with mana 0 it returns none, and the single-Strike sequence
is indeed not winning there. -/
theorem c1_search_optimal_witness :
    IsLeast (winCosts (Game.new (Player.new 10 53) (Boss.new 1 8) .Normal)) 53 ∧
    ¬ WinningSeq (Game.new (Player.new 10 0) (Boss.new 13 8) .Normal)
      [Spell.MagicMissile] := by
  constructor
  · exact (c1_search_optimal (Game.new (Player.new 10 53) (Boss.new 1 8) .Normal)
      1 (some 53) (by decide)).1 53 rfl
  · exact (c1_search_optimal (Game.new (Player.new 10 0) (Boss.new 13 8) .Normal)
      1 none (by decide)).2 rfl [Spell.MagicMissile]

end Day22
